import Mathlib

/-!
Verification development for the z-warp2api account-pool service.

The definitions below are a shallow embedding of the Python sources under
`account-pool-service/`:

* `AccountPool.Db` — the SQLite `accounts` table of
  `account_pool/database.py`, modelled as a list of rows plus the
  auto-increment counter.  Timestamps are modelled as integer seconds,
  `NULL`-able columns as `Option`.
* `AccountPool.FirebasePool` — the in-memory key statistics of
  `account_pool/firebase_api_pool.py`.
* `AccountPool.TokenRefresh` — the JWT-expiry check of
  `account_pool/token_refresh_service.py`, including a faithful model of
  Python's tolerant `base64.urlsafe_b64decode`, strict UTF-8 decoding and
  `json.loads`.
* `AccountPool.Quota` — `QuotaChecker._parse_quota_info` of
  `account_pool/quota_checker.py`.
* `AccountPool.Register` — the persist-on-activation logic of
  `account_pool/batch_register.py`.
* `AccountPool.Service` — the allocate endpoint of `main.py` composed with
  `PoolManager.allocate_accounts_for_request` of `account_pool/pool_manager.py`.

Network I/O is modelled by passing the observed HTTP responses (or the
library parser) as explicit arguments; transport-level exceptions that
abort a request are outside the model.
-/

namespace AccountPool

/-- One row of the `accounts` table (`database.py`, `_init_database`).
`created_at` is always set by `add_account`; `last_used`,
`last_refresh_time` and `session_id` are `NULL`-able. -/
structure Row where
  id : Nat
  email : String
  local_id : String
  id_token : String
  refresh_token : String
  status : String
  created_at : Int
  last_used : Option Int
  last_refresh_time : Option Int
  use_count : Nat
  session_id : Option String
  deriving Repr, DecidableEq

/-- The account database: the table rows plus the `AUTOINCREMENT` counter. -/
structure Db where
  rows : List Row
  nextId : Nat
  deriving Repr, DecidableEq

/-- The caller-supplied part of an `Account` passed to
`AccountDatabase.add_account` (only these fields are inserted). -/
structure AccountIn where
  email : String
  local_id : String
  id_token : String
  refresh_token : String
  status : String
  deriving Repr, DecidableEq

/-- `AccountDatabase.add_account`: inserts
`(email, local_id, id_token, refresh_token, status, created_at=now)`;
the remaining columns take their SQL defaults (`use_count` 0, the rest
`NULL`).  A duplicate email raises `IntegrityError`, which is swallowed
and reported as `false` with the table unchanged. -/
def add_account (db : Db) (acc : AccountIn) (now : Int) : Bool × Db :=
  if db.rows.any (fun r => r.email = acc.email) then
    (false, db)
  else
    (true,
     ⟨db.rows ++ [⟨db.nextId, acc.email, acc.local_id, acc.id_token,
                  acc.refresh_token, acc.status, now, none, none, 0, none⟩],
      db.nextId + 1⟩)

/-- The SQL ordering `ORDER BY last_used ASC NULLS FIRST, created_at ASC`
as a boolean total preorder on rows. -/
def rowLE (a b : Row) : Bool :=
  match a.last_used, b.last_used with
  | none, none => a.created_at ≤ b.created_at
  | none, some _ => true
  | some _, none => false
  | some t, some u => t < u ∨ (t = u ∧ a.created_at ≤ b.created_at)

/-- The SQL ordering as a propositional relation (for sortedness
statements). -/
def RowOrder (a b : Row) : Prop := rowLE a b = true

instance : DecidableRel RowOrder := fun a b => by
  unfold RowOrder; infer_instance

instance : IsTotal Row RowOrder where
  total a b := by
    unfold RowOrder rowLE
    rcases a.last_used with _ | t <;> rcases b.last_used with _ | u <;> simp <;> omega

instance : IsTrans Row RowOrder where
  trans a b c hab hbc := by
    unfold RowOrder rowLE at *
    rcases ha : a.last_used with _ | t <;> rcases hb : b.last_used with _ | u <;>
      rcases hc : c.last_used with _ | v <;>
      simp only [ha, hb, hc] at hab hbc ⊢ <;> simp_all <;> omega

/-- Stable sort by the SQL ordering, modelling the `ORDER BY` clause. -/
def sortRows (l : List Row) : List Row :=
  l.insertionSort RowOrder

/-- The rows produced by
`SELECT * FROM accounts WHERE status = 'available'
 ORDER BY last_used ASC NULLS FIRST, created_at ASC`. -/
def availableSorted (db : Db) : List Row :=
  sortRows (db.rows.filter (fun r => r.status = "available"))

/-- `AccountDatabase.get_available_accounts`.  Python builds the query with
`if limit:` — both `None` and `0` leave the `LIMIT` clause off. -/
def get_available_accounts (db : Db) (limit : Option Nat) : List Row :=
  let rows := availableSorted db
  match limit with
  | none => rows
  | some l => if l = 0 then rows else rows.take l

/-- The row update performed for each selected id in
`allocate_accounts_for_session`:
`SET status='in_use', session_id=?, last_used=?, use_count=use_count+1`. -/
def allocUpdate (sid : String) (now : Int) (r : Row) : Row :=
  { r with status := "in_use", session_id := some sid,
           last_used := some now, use_count := r.use_count + 1 }

/-- One iteration of the update loop: `UPDATE accounts ... WHERE id = ?`. -/
def updateById (sid : String) (now : Int) (rows : List Row) (i : Nat) :
    List Row :=
  rows.map (fun r => if r.id = i then allocUpdate sid now r else r)

/-- `AccountDatabase.allocate_accounts_for_session`: inside one transaction,
select up to `count` available ids in LRU order; if fewer than `count`
were found, roll back and return `[]`; otherwise update each selected row,
commit, and re-read the updated records (`SELECT * WHERE id IN (...)`,
which yields the matching rows in table order; for an empty id list the
malformed `IN ()` query raises and the handler returns `[]`, the same
result as filtering by the empty list). -/
def allocate_accounts_for_session (db : Db) (sid : String) (count : Nat)
    (now : Int) : List Row × Db :=
  let ids := ((availableSorted db).take count).map Row.id
  if ids.length < count then
    ([], db)
  else
    let rows' := ids.foldl (updateById sid now) db.rows
    (rows'.filter (fun r => decide (r.id ∈ ids)), ⟨rows', db.nextId⟩)

/-- `AccountDatabase.release_accounts_for_session`:
`SET status='available', session_id=NULL WHERE session_id = ?`
(SQL `=` never matches `NULL`).  Always reports `true` absent a
datastore error. -/
def release_accounts_for_session (db : Db) (sid : String) : Db :=
  ⟨db.rows.map (fun r =>
      if r.session_id = some sid then
        { r with status := "available", session_id := none }
      else r),
   db.nextId⟩

/-- `AccountDatabase.update_account_token`:
`SET id_token=?, refresh_token=?, last_refresh_time=? WHERE email = ?`;
returns whether a row was affected. -/
def update_account_token (db : Db) (email idt rt : String) (rtime : Int) :
    Bool × Db :=
  (db.rows.any (fun r => r.email = email),
   ⟨db.rows.map (fun r =>
       if r.email = email then
         { r with id_token := idt, refresh_token := rt,
                  last_refresh_time := some rtime }
       else r),
    db.nextId⟩)

/-- `AccountDatabase.mark_account_expired`:
`SET status='expired', session_id=NULL WHERE email = ?`. -/
def mark_account_expired (db : Db) (email : String) : Bool × Db :=
  (db.rows.any (fun r => r.email = email),
   ⟨db.rows.map (fun r =>
       if r.email = email then
         { r with status := "expired", session_id := none }
       else r),
    db.nextId⟩)

/-- `AccountDatabase.cleanup_expired_accounts`:
`DELETE FROM accounts WHERE status = "expired"`; returns the deleted
count. -/
def cleanup_expired_accounts (db : Db) : Nat × Db :=
  ((db.rows.filter (fun r => r.status = "expired")).length,
   ⟨db.rows.filter (fun r => ¬ r.status = "expired"), db.nextId⟩)

/-- The remaining-wait message of `can_refresh_token`
(`remaining_minutes = int(remaining_seconds // 60)`,
`remaining_secs = int(remaining_seconds % 60)`; the remainder is positive
on this branch, so `Int.toNat` division agrees with Python). -/
def remainMsg (remaining : Int) : String :=
  s!"需要等待 {remaining.toNat / 60} 分 {remaining.toNat % 60} 秒后才能刷新"

/-- `AccountDatabase.can_refresh_token`: looks up `last_refresh_time` by
email (`fetchone` = first matching row); missing row → not allowed with a
not-found message; `NULL` → allowed; otherwise allowed iff
`now - last_refresh ≥ min_interval_hours * 3600` seconds, else the
formatted remaining wait. -/
def can_refresh_token (db : Db) (email : String)
    (min_interval_hours : Nat) (now : Int) : Bool × Option String :=
  match db.rows.find? (fun r => r.email = email) with
  | none => (false, some s!"账号不存在: {email}")
  | some r =>
    match r.last_refresh_time with
    | none => (true, none)
    | some t =>
      let time_elapsed : Int := now - t
      let min_interval : Int := (min_interval_hours : Int) * 3600
      if time_elapsed ≥ min_interval then (true, none)
      else (false, some (remainMsg (min_interval - time_elapsed)))

/-- `TokenRefreshService.can_refresh_token`: delegates to the store check
with `min_interval_hours=1`. -/
def service_can_refresh_token (db : Db) (email : String) (now : Int) :
    Bool × Option String :=
  can_refresh_token db email 1 now


lemma sortRows_perm (l : List Row) : List.Perm (sortRows l) l :=
  List.perm_insertionSort _ l

lemma sortRows_sorted (l : List Row) : List.Sorted RowOrder (sortRows l) :=
  List.sorted_insertionSort _ l

lemma mem_availableSorted {db : Db} {r : Row} :
    r ∈ availableSorted db ↔ r ∈ db.rows ∧ r.status = "available" := by
  unfold availableSorted
  rw [(sortRows_perm _).mem_iff]
  simp [List.mem_filter]

lemma availableSorted_length (db : Db) :
    (availableSorted db).length
      = (db.rows.filter (fun r => r.status = "available")).length :=
  (sortRows_perm _).length_eq

/-- Example store for the LRU scenario of the specification: three
available accounts whose `last_used` timestamps are 10 < 20 < 30. -/
def lruRow (i : Nat) (t : Int) : Row :=
  ⟨i, s!"u{i}@x", "l", "i", "r", "available", 0, some t, none, 0, none⟩

def lruDb : Db := ⟨[lruRow 2 20, lruRow 1 10, lruRow 3 30], 4⟩

/-- C7.  `get_available_accounts` and the selection step of
`allocate_accounts_for_session` return `available` accounts in
least-recently-used-first order (`last_used` ascending with `NULL` first,
ties by `created_at` ascending); in the concrete scenario with
`last_used` timestamps 10 < 20 < 30, requesting one account yields the
oldest one. -/
theorem get_available_accounts_lru :
    (∀ (db : Db) (limit : Option Nat),
      List.Sorted RowOrder (get_available_accounts db limit)
      ∧ (∀ r ∈ get_available_accounts db limit,
            r.status = "available" ∧ r ∈ db.rows))
    ∧ (∀ (db : Db) (sid : String) (count : Nat) (now : Int),
        (allocate_accounts_for_session db sid count now).1.length ≠ 0 →
        ((availableSorted db).take count).map Row.id
          = (get_available_accounts db (some count)).map Row.id)
    ∧ get_available_accounts lruDb (some 1) = [lruRow 1 10]
    ∧ (allocate_accounts_for_session lruDb "s" 1 99).1
        = [allocUpdate "s" 99 (lruRow 1 10)] := by
  refine ⟨?_, ?_, by decide, by decide⟩
  · intro db limit
    have hsorted : List.Sorted RowOrder (availableSorted db) := sortRows_sorted _
    have hmem : ∀ r ∈ availableSorted db, r.status = "available" ∧ r ∈ db.rows := by
      intro r hr
      have := mem_availableSorted.mp hr
      exact ⟨this.2, this.1⟩
    constructor
    · unfold get_available_accounts
      rcases limit with _ | l
      · exact hsorted
      · by_cases hl : l = 0 <;> simp [hl]
        · exact hsorted
        · exact hsorted.sublist (List.take_sublist _ _)
    · intro r hr
      apply hmem
      unfold get_available_accounts at hr
      rcases limit with _ | l
      · exact hr
      · by_cases hl : l = 0 <;> simp [hl] at hr
        · exact hr
        · exact List.take_subset _ _ hr
  · intro db sid count now hne
    unfold get_available_accounts
    by_cases hc : count = 0
    · exfalso
      apply hne
      simp [allocate_accounts_for_session, hc]
    · simp [hc]

theorem get_available_accounts_lru_witness :
    List.Sorted RowOrder (get_available_accounts lruDb (some 2))
    ∧ get_available_accounts lruDb (some 1) = [lruRow 1 10] :=
  ⟨(get_available_accounts_lru.1 lruDb (some 2)).1,
   get_available_accounts_lru.2.2.1⟩

/-- C2.  `can_refresh_token`: unknown email → not allowed with the
not-found message; never refreshed → allowed; otherwise allowed exactly
when `now - last_refresh_time ≥ min_interval_hours * 3600` seconds, and
when not allowed the reason is the remaining wait formatted as minutes
and seconds. -/
theorem can_refresh_token_spec :
    ∀ (db : Db) (email : String) (mih : Nat) (now : Int),
      (db.rows.find? (fun r => r.email = email) = none →
        can_refresh_token db email mih now
          = (false, some s!"账号不存在: {email}"))
      ∧ (∀ r, db.rows.find? (fun r => r.email = email) = some r →
          (r.last_refresh_time = none →
            can_refresh_token db email mih now = (true, none))
          ∧ (∀ t, r.last_refresh_time = some t →
              ((can_refresh_token db email mih now).1 = true ↔
                now - t ≥ (mih : Int) * 3600)
              ∧ (now - t < (mih : Int) * 3600 →
                  can_refresh_token db email mih now
                    = (false,
                       some (remainMsg ((mih : Int) * 3600 - (now - t))))))) := by
  intro db email mih now
  unfold can_refresh_token
  constructor
  · intro h
    rw [h]
  · intro r hr
    simp only [hr]
    constructor
    · intro h0
      simp only [h0]
    · intro t ht
      simp only [ht]
      constructor
      · by_cases hge : now - t ≥ (mih : Int) * 3600 <;> simp [hge]
      · intro hlt
        have hng : ¬ (now - t ≥ (mih : Int) * 3600) := by omega
        simp [hng]

/-- Store with a single account last refreshed at time 1000 (seconds). -/
def refreshRow : Row :=
  ⟨1, "a@x", "l", "i", "r", "available", 0, none, some 1000, 0, none⟩

def refreshDb : Db := ⟨[refreshRow], 2⟩

theorem can_refresh_token_spec_witness :
    can_refresh_token refreshDb "a@x" 1 2800
      = (false, some "需要等待 30 分 0 秒后才能刷新")
    ∧ can_refresh_token refreshDb "a@x" 1 4601 = (true, none)
    ∧ (can_refresh_token refreshDb "a@x" 1 4600).1 = true
    ∧ can_refresh_token refreshDb "nope@x" 1 0
      = (false, some "账号不存在: nope@x") := by
  have h1800 := ((can_refresh_token_spec refreshDb "a@x" 1 2800).2
    refreshRow (by decide)).2 1000 rfl
  have h3600 := ((can_refresh_token_spec refreshDb "a@x" 1 4600).2
    refreshRow (by decide)).2 1000 rfl
  have hnf := (can_refresh_token_spec refreshDb "nope@x" 1 0).1 (by decide)
  refine ⟨?_, by decide, ?_, ?_⟩
  · rw [h1800.2 (by decide)]
    decide
  · exact h3600.1.mpr (by decide)
  · rw [hnf]
    decide

lemma allocUpdate_id (sid : String) (now : Int) (r : Row) :
    (allocUpdate sid now r).id = r.id := rfl

/-- With duplicate-free ids, the `UPDATE ... WHERE id = ?` loop is the
pointwise update of every row whose id was selected. -/
lemma foldl_updateById (sid : String) (now : Int) :
    ∀ (ids : List Nat), ids.Nodup → ∀ (rows : List Row),
      ids.foldl (updateById sid now) rows
        = rows.map (fun r => if r.id ∈ ids then allocUpdate sid now r else r) := by
  intro ids
  induction ids with
  | nil =>
    intro _ rows
    simp
  | cons i is ih =>
    intro hnd rows
    have hni : i ∉ is := (List.nodup_cons.mp hnd).1
    have hnds : is.Nodup := (List.nodup_cons.mp hnd).2
    simp only [List.foldl_cons]
    rw [ih hnds]
    unfold updateById
    rw [List.map_map]
    apply List.map_congr_left
    intro r _
    simp only [Function.comp_apply]
    by_cases hri : r.id = i
    · rw [if_pos hri]
      have hnotin : ¬ (allocUpdate sid now r).id ∈ is := by
        rw [allocUpdate_id, hri]
        exact hni
      rw [if_neg hnotin, if_pos (by simp [hri])]
    · rw [if_neg hri]
      by_cases hmem : r.id ∈ is
      · rw [if_pos hmem, if_pos (by simp [hmem])]
      · rw [if_neg hmem, if_neg (by simp [hri, hmem])]

/-- Counting lemma: filtering duplicate-free rows by membership of their
ids in a duplicate-free id list contained in the table yields exactly one
row per id. -/
lemma length_filter_mem :
    ∀ (rows : List Row) (ids : List Nat),
      (rows.map Row.id).Nodup → ids.Nodup →
      (∀ i ∈ ids, i ∈ rows.map Row.id) →
      (rows.filter (fun r => decide (r.id ∈ ids))).length = ids.length := by
  intro rows
  induction rows with
  | nil =>
    intro ids _ _ hsub
    cases ids with
    | nil => simp
    | cons i is => exact absurd (hsub i (by simp)) (by simp)
  | cons r rest ih =>
    intro ids hrows hids hsub
    have hrows' := hrows
    rw [List.map_cons, List.nodup_cons] at hrows'
    obtain ⟨hrid, hrest⟩ := hrows'
    by_cases h : r.id ∈ ids
    · have hfc : rest.filter (fun x => decide (x.id ∈ ids))
          = rest.filter (fun x => decide (x.id ∈ ids.erase r.id)) := by
        apply List.filter_congr
        intro x hx
        have hxid : x.id ≠ r.id := by
          intro hxr
          exact hrid (hxr ▸ List.mem_map_of_mem Row.id hx)
        simp [hids.mem_erase_iff, hxid]
      have hsub' : ∀ i ∈ ids.erase r.id, i ∈ rest.map Row.id := by
        intro i hi
        have hi' := hids.mem_erase_iff.mp hi
        have := hsub i hi'.2
        simp only [List.map_cons, List.mem_cons] at this
        rcases this with h1 | h1
        · exact absurd h1 hi'.1
        · exact h1
      have hih := ih (ids.erase r.id) hrest (hids.erase r.id) hsub'
      have hcons : (r :: rest).filter (fun x => decide (x.id ∈ ids))
          = r :: rest.filter (fun x => decide (x.id ∈ ids)) := by
        simp [h]
      rw [hcons, List.length_cons, hfc, hih, List.length_erase_of_mem h]
      have hpos : 0 < ids.length := List.length_pos.mpr (List.ne_nil_of_mem h)
      omega
    · have hsub' : ∀ i ∈ ids, i ∈ rest.map Row.id := by
        intro i hi
        have := hsub i hi
        simp only [List.map_cons, List.mem_cons] at this
        rcases this with h1 | h1
        · exact absurd (h1 ▸ hi) h
        · exact h1
      have hcons : (r :: rest).filter (fun x => decide (x.id ∈ ids))
          = rest.filter (fun x => decide (x.id ∈ ids)) := by
        simp [h]
      rw [hcons]
      exact ih ids hrest hids hsub'


/-- C1.  `allocate_accounts_for_session` is atomic: with fewer than
`count` available accounts it returns `[]` and leaves every row
unchanged; otherwise it returns exactly `count` records, each being a row
of the new state updated to status `in_use` with the session set,
`last_used` set to now and `use_count` incremented by one (stated under
the primary-key uniqueness of row ids). -/
theorem allocate_accounts_atomic :
    ∀ (db : Db) (sid : String) (count : Nat) (now : Int),
      (db.rows.map Row.id).Nodup →
      ((db.rows.filter (fun r => r.status = "available")).length < count →
        allocate_accounts_for_session db sid count now = ([], db))
      ∧ (count ≤ (db.rows.filter (fun r => r.status = "available")).length →
        (allocate_accounts_for_session db sid count now).1.length = count
        ∧ ∀ r' ∈ (allocate_accounts_for_session db sid count now).1,
            r'.status = "in_use" ∧ r'.session_id = some sid
            ∧ r'.last_used = some now
            ∧ r' ∈ (allocate_accounts_for_session db sid count now).2.rows
            ∧ ∃ r ∈ db.rows, r.id = r'.id ∧ r.status = "available"
                ∧ r' = allocUpdate sid now r) := by
  intro db sid count now hid
  have hlen : (availableSorted db).length
      = (db.rows.filter (fun r => r.status = "available")).length :=
    availableSorted_length db
  set ids := ((availableSorted db).take count).map Row.id with hids_def
  have hids_len : ids.length = min count (availableSorted db).length := by
    rw [hids_def, List.length_map, List.length_take]
  constructor
  · intro hlt
    have hc : ids.length < count := by omega
    simp only [allocate_accounts_for_session]
    rw [← hids_def, if_pos hc]
  · intro hge
    have hc : ¬ ids.length < count := by omega
    have hnd_avail : ((availableSorted db).map Row.id).Nodup := by
      have hperm : List.Perm (availableSorted db)
          (db.rows.filter (fun r => r.status = "available")) := sortRows_perm _
      have hpermmap := hperm.map Row.id
      have hsubl : List.Sublist
          ((db.rows.filter (fun r => r.status = "available")).map Row.id)
          (db.rows.map Row.id) := (List.filter_sublist _).map _
      exact hpermmap.nodup_iff.mpr (hid.sublist hsubl)
    have hnd_ids : ids.Nodup := by
      rw [hids_def, List.map_take]
      exact hnd_avail.sublist (List.take_sublist _ _)
    have hmem_take : ∀ q ∈ (availableSorted db).take count,
        q ∈ db.rows ∧ q.status = "available" := by
      intro q hq
      have := mem_availableSorted.mp (List.take_subset _ _ hq)
      exact this
    have hsub : ∀ i ∈ ids, i ∈ db.rows.map Row.id := by
      intro i hi
      rw [hids_def] at hi
      obtain ⟨q, hq, rfl⟩ := List.mem_map.mp hi
      exact List.mem_map_of_mem _ (hmem_take q hq).1
    have hfold := foldl_updateById sid now ids hnd_ids db.rows
    set g := fun r => if r.id ∈ ids then allocUpdate sid now r else r with hg
    have hgid_pres : ∀ r, (g r).id = r.id := by
      intro r
      rw [hg]
      by_cases h : r.id ∈ ids <;> simp [h, allocUpdate_id]
    have hidmap : ((db.rows.map g).map Row.id) = db.rows.map Row.id := by
      rw [List.map_map]
      apply List.map_congr_left
      intro r _
      exact hgid_pres r
    have halloc : allocate_accounts_for_session db sid count now
        = ((db.rows.map g).filter (fun r => decide (r.id ∈ ids)),
           ⟨db.rows.map g, db.nextId⟩) := by
      simp only [allocate_accounts_for_session]
      rw [← hids_def, if_neg hc, hfold]
    rw [halloc]
    constructor
    · show ((db.rows.map g).filter (fun r => decide (r.id ∈ ids))).length = count
      rw [length_filter_mem (db.rows.map g) ids
            (by rw [hidmap]; exact hid) hnd_ids
            (by intro i hi; rw [hidmap]; exact hsub i hi)]
      omega
    · intro r' hr'
      have hr'f : r' ∈ (db.rows.map g).filter (fun r => decide (r.id ∈ ids)) := hr'
      rw [List.mem_filter] at hr'f
      obtain ⟨hr'mem, hr'id⟩ := hr'f
      obtain ⟨r, hr, rfl⟩ := List.mem_map.mp hr'mem
      have hrid_mem : r.id ∈ ids := by
        have := of_decide_eq_true hr'id
        rwa [hgid_pres r] at this
      have hgr : g r = allocUpdate sid now r := by
        rw [hg]
        exact if_pos hrid_mem
      have hstat : r.status = "available" := by
        rw [hids_def] at hrid_mem
        obtain ⟨q, hq, hqid⟩ := List.mem_map.mp hrid_mem
        have hrq : r = q :=
          List.inj_on_of_nodup_map hid hr (hmem_take q hq).1 (by rw [hqid])
        rw [hrq]
        exact (hmem_take q hq).2
      refine ⟨?_, ?_, ?_, ?_, r, hr, ?_, hstat, hgr⟩
      · rw [hgr]; rfl
      · rw [hgr]; rfl
      · rw [hgr]; rfl
      · exact hr'mem
      · rw [hgr, allocUpdate_id]

theorem allocate_accounts_atomic_witness :
    (allocate_accounts_for_session lruDb "s" 2 99).1.length = 2
    ∧ allocate_accounts_for_session lruDb "s" 5 99 = ([], lruDb) := by
  have h2 := allocate_accounts_atomic lruDb "s" 2 99 (by decide)
  have h5 := allocate_accounts_atomic lruDb "s" 5 99 (by decide)
  exact ⟨(h2.2 (by decide)).1, h5.1 (by decide)⟩

/-- Store states reachable from the empty table by the store operations
of `database.py`, with `add_account` accepting any record (as the code
does). -/
inductive ReachableAll : Db → Prop
  | init : ReachableAll ⟨[], 1⟩
  | add (acc : AccountIn) (now : Int) {db : Db} :
      ReachableAll db → ReachableAll (add_account db acc now).2
  | alloc (sid : String) (count : Nat) (now : Int) {db : Db} :
      ReachableAll db →
      ReachableAll (allocate_accounts_for_session db sid count now).2
  | release (sid : String) {db : Db} :
      ReachableAll db → ReachableAll (release_accounts_for_session db sid)
  | update (email idt rt : String) (t : Int) {db : Db} :
      ReachableAll db → ReachableAll (update_account_token db email idt rt t).2
  | expire (email : String) {db : Db} :
      ReachableAll db → ReachableAll (mark_account_expired db email).2
  | cleanup {db : Db} :
      ReachableAll db → ReachableAll (cleanup_expired_accounts db).2

/-- Store states reachable when every record handed to `add_account` has
a status other than `in_use` — the discipline every caller in the
repository follows (they all insert `available` records). -/
inductive Reachable : Db → Prop
  | init : Reachable ⟨[], 1⟩
  | add (acc : AccountIn) (now : Int) {db : Db} :
      acc.status ≠ "in_use" → Reachable db → Reachable (add_account db acc now).2
  | alloc (sid : String) (count : Nat) (now : Int) {db : Db} :
      Reachable db →
      Reachable (allocate_accounts_for_session db sid count now).2
  | release (sid : String) {db : Db} :
      Reachable db → Reachable (release_accounts_for_session db sid)
  | update (email idt rt : String) (t : Int) {db : Db} :
      Reachable db → Reachable (update_account_token db email idt rt t).2
  | expire (email : String) {db : Db} :
      Reachable db → Reachable (mark_account_expired db email).2
  | cleanup {db : Db} :
      Reachable db → Reachable (cleanup_expired_accounts db).2

lemma foldl_updateById_inv (sid : String) (now : Int) :
    ∀ (ids : List Nat) (rows : List Row),
      (∀ r ∈ rows, (r.session_id ≠ none ↔ r.status = "in_use")) →
      ∀ r ∈ ids.foldl (updateById sid now) rows,
        (r.session_id ≠ none ↔ r.status = "in_use") := by
  intro ids
  induction ids with
  | nil =>
    intro rows h
    simpa using h
  | cons i is ih =>
    intro rows h
    simp only [List.foldl_cons]
    apply ih
    intro r hr
    unfold updateById at hr
    obtain ⟨q, hq, rfl⟩ := List.mem_map.mp hr
    by_cases hqi : q.id = i
    · rw [if_pos hqi]
      simp [allocUpdate]
    · rw [if_neg hqi]
      exact h q hq

/-- C8 counterexample: the claim quantifies over every sequence of store
operations, but `add_account` accepts a record whose status is already
`in_use` and inserts it with a `NULL` `session_id`, so the state reached
by that single operation violates the iff. -/
theorem session_invariant_counterexample :
    ¬ (∀ db : Db, ReachableAll db →
        ∀ r ∈ db.rows, (r.session_id ≠ none ↔ r.status = "in_use")) := by
  intro h
  have hreach : ReachableAll
      (add_account ⟨[], 1⟩ ⟨"e@x", "l", "i", "r", "in_use"⟩ 0).2 :=
    ReachableAll.add ⟨"e@x", "l", "i", "r", "in_use"⟩ 0 ReachableAll.init
  have hrow := h _ hreach
    ⟨1, "e@x", "l", "i", "r", "in_use", 0, none, none, 0, none⟩ (by decide)
  exact (hrow.mpr rfl) rfl

/-- C8 (amended).  Provided every record handed to `add_account` has a
status other than `in_use` (as every caller in the repository does), in
every reachable store state a row has a non-`NULL` `session_id` exactly
when its status is `in_use`. -/
theorem session_invariant :
    ∀ (db : Db), Reachable db →
      ∀ r ∈ db.rows, (r.session_id ≠ none ↔ r.status = "in_use") := by
  intro db h
  induction h with
  | init =>
    intro r hr
    simp at hr
  | add acc now hne hdb ih =>
    rename_i db'
    cases hdup : db'.rows.any (fun r => r.email = acc.email) with
    | true =>
      simp only [add_account, hdup]
      simpa using ih
    | false =>
      simp only [add_account, hdup]
      intro r hr
      simp only [Bool.false_eq_true, if_false, List.mem_append,
        List.mem_singleton] at hr
      rcases hr with hr | hr
      · exact ih r hr
      · subst hr
        simp [hne]
  | alloc sid count now hdb ih =>
    rename_i db'
    simp only [allocate_accounts_for_session]
    by_cases hcc :
        ((((availableSorted db').take count).map Row.id).length < count)
    · rw [if_pos hcc]
      exact ih
    · rw [if_neg hcc]
      exact foldl_updateById_inv sid now _ db'.rows ih
  | release sid hdb ih =>
    rename_i db'
    intro r hr
    unfold release_accounts_for_session at hr
    obtain ⟨q, hq, rfl⟩ := List.mem_map.mp hr
    by_cases hqs : q.session_id = some sid
    · rw [if_pos hqs]
      simp
    · rw [if_neg hqs]
      exact ih q hq
  | update email idt rt t hdb ih =>
    rename_i db'
    intro r hr
    unfold update_account_token at hr
    obtain ⟨q, hq, rfl⟩ := List.mem_map.mp hr
    by_cases hqe : q.email = email
    · rw [if_pos hqe]
      simpa using ih q hq
    · rw [if_neg hqe]
      exact ih q hq
  | expire email hdb ih =>
    rename_i db'
    intro r hr
    unfold mark_account_expired at hr
    obtain ⟨q, hq, rfl⟩ := List.mem_map.mp hr
    by_cases hqe : q.email = email
    · rw [if_pos hqe]
      simp
    · rw [if_neg hqe]
      exact ih q hq
  | cleanup hdb ih =>
    rename_i db'
    intro r hr
    unfold cleanup_expired_accounts at hr
    exact ih r (List.mem_of_mem_filter hr)

theorem session_invariant_witness :
    ((⟨1, "a@x", "l", "i", "r", "available", 0, none, none, 0, none⟩ :
        Row).session_id ≠ none
      ↔ (⟨1, "a@x", "l", "i", "r", "available", 0, none, none, 0, none⟩ :
        Row).status = "in_use") :=
  session_invariant _
    (Reachable.add ⟨"a@x", "l", "i", "r", "available"⟩ 0 (by decide)
      Reachable.init)
    _ (by decide)

/-- Per-key state of the Firebase API key pool
(`firebase_api_pool.py`): cumulative request counts, the stored success
rate, the last-used time and the optional cooldown-until time.  The
`key_usage_stats` / `key_cooldowns` dictionaries are modelled as one
entry per configured key. -/
structure KeyEntry where
  key : String
  total_requests : Nat
  failed_requests : Nat
  success_rate : ℚ
  last_used : Option Int
  cooldown : Option Int
  deriving Repr, DecidableEq

/-- `FirebaseAPIPool._init_usage_stats`: fresh statistics for one key. -/
def initKeyEntry (k : String) : KeyEntry :=
  ⟨k, 0, 0, 1, none, none⟩

/-- A key is usable when it has no cooldown or its cooldown has passed
(`cooldown_until is None or current_time > cooldown_until`). -/
def keyAvailable (now : Int) (e : KeyEntry) : Bool :=
  match e.cooldown with
  | none => true
  | some t => now > t

/-- The cooldown value used by the all-in-cooldown fallback
(`self.key_cooldowns.get(k, datetime.min)`; the `datetime.min` default,
modelled as 0, is unreachable on that branch since every key then has a
cooldown). -/
def cooldownVal (e : KeyEntry) : Int :=
  match e.cooldown with
  | none => 0
  | some t => t

/-- Python's `max(xs, key=f)`: the first element attaining the maximal
key (later elements replace the current best only when strictly
greater). -/
def argmaxFirst (f : KeyEntry → ℚ) : List KeyEntry → Option KeyEntry
  | [] => none
  | x :: xs => some (xs.foldl (fun b a => if f a > f b then a else b) x)

/-- Python's `min(xs, key=f)`: the first element attaining the minimal
key. -/
def argminFirst (f : KeyEntry → Int) : List KeyEntry → Option KeyEntry
  | [] => none
  | x :: xs => some (xs.foldl (fun b a => if f a < f b then a else b) x)

/-- `FirebaseAPIPool.get_next_api_key`: among keys not in cooldown pick
the one with the highest stored success rate; if every key is cooling
down, pick the one whose cooldown ends soonest.  `none` only for an
empty pool (the constructor guarantees at least one key). -/
def get_next_api_key (ks : List KeyEntry) (now : Int) : Option String :=
  let available := ks.filter (keyAvailable now)
  match available with
  | [] => (argminFirst cooldownVal ks).map KeyEntry.key
  | _ => (argmaxFirst KeyEntry.success_rate available).map KeyEntry.key

/-- `FirebaseAPIPool._get_cooldown_time` (minutes per error kind). -/
def get_cooldown_time (error_type : String) : Nat :=
  if error_type = "rate_limit" then 15
  else if error_type = "ssl_error" then 5
  else if error_type = "connection_error" then 3
  else if error_type = "timeout" then 2
  else if error_type = "unknown" then 1
  else 1

/-- `FirebaseAPIPool.mark_key_failed`: bump failed/total counts,
recompute the success rate, and start a cooldown of
`_get_cooldown_time(error_type)` minutes. -/
def mark_key_failed (ks : List KeyEntry) (k : String) (error_type : String)
    (now : Int) : List KeyEntry :=
  ks.map (fun e =>
    if e.key = k then
      let failed := e.failed_requests + 1
      let total := e.total_requests + 1
      let rate : ℚ := ((total - failed : Nat) : ℚ) / (total : ℚ)
      let cm := get_cooldown_time error_type
      { e with failed_requests := failed, total_requests := total,
               success_rate := rate,
               cooldown := if 0 < cm then some (now + (cm : Int) * 60)
                           else e.cooldown }
    else e)

/-- `FirebaseAPIPool.mark_key_success`: bump the total count, record the
use time, recompute the success rate and clear the cooldown. -/
def mark_key_success (ks : List KeyEntry) (k : String) (now : Int) :
    List KeyEntry :=
  ks.map (fun e =>
    if e.key = k then
      let total := e.total_requests + 1
      let rate : ℚ := ((total - e.failed_requests : Nat) : ℚ) / (total : ℚ)
      { e with total_requests := total, last_used := some now,
               success_rate := rate, cooldown := none }
    else e)

lemma foldl_argmax_mem {α β : Type} [LinearOrder β] (f : α → β) :
    ∀ (xs : List α) (x : α),
      xs.foldl (fun b a => if f a > f b then a else b) x ∈ x :: xs := by
  intro xs
  induction xs with
  | nil =>
    intro x
    simp
  | cons y ys ih =>
    intro x
    simp only [List.foldl_cons]
    by_cases hyx : f y > f x
    · rw [if_pos hyx]
      exact List.mem_cons_of_mem x (ih y)
    · rw [if_neg hyx]
      rcases List.mem_cons.mp (ih x) with h1 | h1
      · simp [h1]
      · exact List.mem_cons_of_mem x (List.mem_cons_of_mem y h1)

lemma foldl_argmax_le {α β : Type} [LinearOrder β] (f : α → β) :
    ∀ (xs : List α) (x : α) (a : α), a ∈ x :: xs →
      f a ≤ f (xs.foldl (fun b a => if f a > f b then a else b) x) := by
  intro xs
  induction xs with
  | nil =>
    intro x a ha
    simp only [List.foldl_nil]
    rcases List.mem_cons.mp ha with h | h
    · exact le_of_eq (congrArg f h)
    · simp at h
  | cons y ys ih =>
    intro x a ha
    simp only [List.foldl_cons]
    have hstep : f x ≤ f (if f y > f x then y else x) := by
      by_cases hyx : f y > f x
      · rw [if_pos hyx]
        exact le_of_lt hyx
      · rw [if_neg hyx]
    have hstepy : f y ≤ f (if f y > f x then y else x) := by
      by_cases hyx : f y > f x
      · rw [if_pos hyx]
      · rw [if_neg hyx]
        exact le_of_not_lt hyx
    rcases List.mem_cons.mp ha with h | h
    · exact le_trans (h ▸ hstep) (ih _ _ (List.mem_cons_self _ _))
    · rcases List.mem_cons.mp h with h2 | h2
      · exact le_trans (h2 ▸ hstepy) (ih _ _ (List.mem_cons_self _ _))
      · exact ih _ a (List.mem_cons_of_mem _ h2)

lemma foldl_argmin_mem {α β : Type} [LinearOrder β] (f : α → β) :
    ∀ (xs : List α) (x : α),
      xs.foldl (fun b a => if f a < f b then a else b) x ∈ x :: xs := by
  intro xs
  induction xs with
  | nil =>
    intro x
    simp
  | cons y ys ih =>
    intro x
    simp only [List.foldl_cons]
    by_cases hyx : f y < f x
    · rw [if_pos hyx]
      exact List.mem_cons_of_mem x (ih y)
    · rw [if_neg hyx]
      rcases List.mem_cons.mp (ih x) with h1 | h1
      · simp [h1]
      · exact List.mem_cons_of_mem x (List.mem_cons_of_mem y h1)

lemma foldl_argmin_le {α β : Type} [LinearOrder β] (f : α → β) :
    ∀ (xs : List α) (x : α) (a : α), a ∈ x :: xs →
      f (xs.foldl (fun b a => if f a < f b then a else b) x) ≤ f a := by
  intro xs
  induction xs with
  | nil =>
    intro x a ha
    simp only [List.foldl_nil]
    rcases List.mem_cons.mp ha with h | h
    · exact le_of_eq (congrArg f h.symm)
    · simp at h
  | cons y ys ih =>
    intro x a ha
    simp only [List.foldl_cons]
    have hstep : f (if f y < f x then y else x) ≤ f x := by
      by_cases hyx : f y < f x
      · rw [if_pos hyx]
        exact le_of_lt hyx
      · rw [if_neg hyx]
    have hstepy : f (if f y < f x then y else x) ≤ f y := by
      by_cases hyx : f y < f x
      · rw [if_pos hyx]
      · rw [if_neg hyx]
        exact le_of_not_lt hyx
    rcases List.mem_cons.mp ha with h | h
    · exact le_trans (ih _ _ (List.mem_cons_self _ _)) (h ▸ hstep)
    · rcases List.mem_cons.mp h with h2 | h2
      · exact le_trans (ih _ _ (List.mem_cons_self _ _)) (h2 ▸ hstepy)
      · exact ih _ a (List.mem_cons_of_mem _ h2)

/-- C6.  `get_next_api_key` on a non-empty pool always returns a key of
the pool; when some key is out of cooldown it returns an available key of
maximal stored success rate, and when every key is cooling down it
returns the key whose cooldown ends soonest. -/
theorem get_next_api_key_spec :
    ∀ (ks : List KeyEntry) (now : Int), ks ≠ [] →
      ∃ e ∈ ks, get_next_api_key ks now = some e.key
        ∧ (ks.filter (keyAvailable now) ≠ [] →
            keyAvailable now e = true
            ∧ ∀ e' ∈ ks, keyAvailable now e' = true →
                e'.success_rate ≤ e.success_rate)
        ∧ (ks.filter (keyAvailable now) = [] →
            ∀ e' ∈ ks, cooldownVal e ≤ cooldownVal e') := by
  intro ks now hne
  unfold get_next_api_key
  cases havail : ks.filter (keyAvailable now) with
  | nil =>
    cases hks : ks with
    | nil => exact absurd hks hne
    | cons x xs =>
      refine ⟨xs.foldl
          (fun b a => if cooldownVal a < cooldownVal b then a else b) x,
        ?_, ?_, ?_, ?_⟩
      · exact foldl_argmin_mem cooldownVal xs x
      · rfl
      · intro hcontra
        exact absurd rfl hcontra
      · intro _ e' he'
        exact foldl_argmin_le cooldownVal xs x e' he'
  | cons a as =>
    have hmem : (as.foldl
        (fun b x => if x.success_rate > b.success_rate then x else b) a)
          ∈ ks.filter (keyAvailable now) := by
      rw [havail]
      exact foldl_argmax_mem KeyEntry.success_rate as a
    have hmem' := List.mem_filter.mp hmem
    refine ⟨_, hmem'.1, ?_, ?_, ?_⟩
    · rfl
    · intro _
      refine ⟨hmem'.2, ?_⟩
      intro e' he' hav
      have he'f : e' ∈ ks.filter (keyAvailable now) :=
        List.mem_filter.mpr ⟨he', hav⟩
      rw [havail] at he'f
      exact foldl_argmax_le KeyEntry.success_rate as a e' he'f
    · intro h0
      exact absurd h0 (List.cons_ne_nil a as)

theorem get_next_api_key_spec_witness :
    get_next_api_key
        (mark_key_failed [initKeyEntry "A", initKeyEntry "B"] "A"
          "rate_limit" 50) 50 = some "B"
    ∧ (get_next_api_key
        [⟨"A", 1, 1, 0, none, some 200⟩, ⟨"B", 1, 1, 0, none, some 100⟩]
        50).isSome = true := by
  constructor
  · decide
  · obtain ⟨e, _, heq, _⟩ := get_next_api_key_spec
      [⟨"A", 1, 1, 0, none, some 200⟩, ⟨"B", 1, 1, 0, none, some 100⟩]
      50 (by decide)
    rw [heq]
    rfl

/-- Character-list prefix test (helper for Python's `in` on strings). -/
def isPrefixOfChars : List Char → List Char → Bool
  | [], _ => true
  | _ :: _, [] => false
  | p :: ps, c :: cs => p = c && isPrefixOfChars ps cs

/-- Infix test on character lists. -/
def isInfixOfChars (pat : List Char) : List Char → Bool
  | [] => pat.isEmpty
  | c :: cs => isPrefixOfChars pat (c :: cs) || isInfixOfChars pat cs

/-- Python's `pat in s` substring test. -/
def strContains (s pat : String) : Bool :=
  isInfixOfChars pat.data s.data

/-- An HTTP response as observed by the request loops: status code and
body text. -/
structure HttpResp where
  status : Nat
  body : String
  deriving Repr, DecidableEq

/-- `FirebaseAPIPool.make_firebase_request`, with the per-attempt HTTP
responses supplied as a list (one entry per attempt, so the list length
is `max_retries`; transport exceptions are outside the model): select a
key; a 200 marks it successful and returns; a 429 marks it failed as
`rate_limit` and every other status marks it failed as `unknown`; the
response is returned only on the final attempt, otherwise the loop
retries with a freshly selected key. -/
def make_firebase_request (ks : List KeyEntry) (now : Int) :
    List HttpResp → Option HttpResp × List KeyEntry
  | [] => (none, ks)
  | r :: rest =>
    match get_next_api_key ks now with
    | none => (none, ks)
    | some key =>
      if r.status = 200 then
        (some r, mark_key_success ks key now)
      else
        let ks' := if r.status = 429 then mark_key_failed ks key "rate_limit" now
                   else mark_key_failed ks key "unknown" now
        match rest with
        | [] => (some r, ks')
        | _ :: _ => make_firebase_request ks' now rest

/-- `BatchRegisterOld._make_firebase_request` (the legacy batch
registrar's request helper): a 400 whose body contains `EMAIL_EXISTS` or
`WEAK_PASSWORD` is returned immediately with no key marking; other
statuses mark the key failed with the matching kind (`bad_request`,
`rate_limit`, `server_error` or `unknown`) and retry until the final
attempt. -/
def legacy_make_firebase_request (ks : List KeyEntry) (now : Int) :
    List HttpResp → Option HttpResp × List KeyEntry
  | [] => (none, ks)
  | r :: rest =>
    match get_next_api_key ks now with
    | none => (none, ks)
    | some key =>
      if r.status = 200 then
        (some r, mark_key_success ks key now)
      else
        let step : Option (List KeyEntry) :=
          if r.status = 400 then
            if strContains r.body "EMAIL_EXISTS"
                || strContains r.body "WEAK_PASSWORD" then
              none
            else some (mark_key_failed ks key "bad_request" now)
          else if r.status = 429 then
            some (mark_key_failed ks key "rate_limit" now)
          else if r.status = 500 ∨ r.status = 502 ∨ r.status = 503
              ∨ r.status = 504 then
            some (mark_key_failed ks key "server_error" now)
          else
            some (mark_key_failed ks key "unknown" now)
        match step with
        | none => (some r, ks)
        | some ks' =>
          match rest with
          | [] => (some r, ks')
          | _ :: _ => legacy_make_firebase_request ks' now rest

/-- C3 counterexample: in the key pool's own `make_firebase_request`, a
400 response whose body contains `EMAIL_EXISTS` is *not* returned as-is:
the selected key is marked failed (`unknown` kind) on every attempt, so
after three attempts the single key has 3 failed requests, success rate
0, and a 1-minute cooldown, instead of the untouched fresh statistics. -/
theorem firebase_400_email_exists_counterexample :
    ((make_firebase_request [initKeyEntry "K"] 0
        [⟨400, "error EMAIL_EXISTS"⟩, ⟨400, "error EMAIL_EXISTS"⟩,
         ⟨400, "error EMAIL_EXISTS"⟩]).2.map
       (fun e => (e.key, e.total_requests, e.failed_requests, e.cooldown)))
      = [("K", 3, 3, some 60)]
    ∧ ((make_firebase_request [initKeyEntry "K"] 0
        [⟨400, "error EMAIL_EXISTS"⟩, ⟨400, "error EMAIL_EXISTS"⟩,
         ⟨400, "error EMAIL_EXISTS"⟩]).2.map
       (fun e => (e.key, e.total_requests, e.failed_requests, e.cooldown)))
      ≠ [initKeyEntry "K"].map
          (fun e => (e.key, e.total_requests, e.failed_requests, e.cooldown)) := by
  decide

/-- C3 (amended).  Only the legacy batch registrar's request helper
returns a 400 `EMAIL_EXISTS`/`WEAK_PASSWORD` body as-is with the key
statistics untouched; the key pool's own `make_firebase_request` marks
the selected key failed with kind `unknown` on a 400 (here stated for a
single-attempt run, which returns the response after marking). -/
theorem firebase_400_email_exists_amended :
    (∀ (ks : List KeyEntry) (now : Int) (key : String) (r : HttpResp)
        (rest : List HttpResp),
       get_next_api_key ks now = some key →
       r.status = 400 →
       (strContains r.body "EMAIL_EXISTS"
         || strContains r.body "WEAK_PASSWORD") = true →
       legacy_make_firebase_request ks now (r :: rest) = (some r, ks))
    ∧ (∀ (ks : List KeyEntry) (now : Int) (key : String) (r : HttpResp),
       get_next_api_key ks now = some key →
       r.status = 400 →
       make_firebase_request ks now [r]
         = (some r, mark_key_failed ks key "unknown" now)) := by
  constructor
  · intro ks now key r rest hk h400 hbody
    simp only [legacy_make_firebase_request, hk]
    rw [h400]
    simp [hbody]
  · intro ks now key r hk h400
    simp only [make_firebase_request, hk]
    rw [h400]
    simp

theorem firebase_400_email_exists_amended_witness :
    legacy_make_firebase_request [initKeyEntry "K"] 0
        [⟨400, "x EMAIL_EXISTS y"⟩]
      = (some ⟨400, "x EMAIL_EXISTS y"⟩, [initKeyEntry "K"])
    ∧ make_firebase_request [initKeyEntry "K"] 0 [⟨400, "x EMAIL_EXISTS y"⟩]
      = (some ⟨400, "x EMAIL_EXISTS y"⟩,
         mark_key_failed [initKeyEntry "K"] "K" "unknown" 0) := by
  constructor
  · exact firebase_400_email_exists_amended.1 [initKeyEntry "K"] 0 "K"
      ⟨400, "x EMAIL_EXISTS y"⟩ [] (by decide) rfl (by decide)
  · exact firebase_400_email_exists_amended.2 [initKeyEntry "K"] 0 "K"
      ⟨400, "x EMAIL_EXISTS y"⟩ (by decide) rfl

/-- The token bundle produced by a successful registration run
(`CompleteScriptRegistration.run_complete_registration`,
`result['final_tokens']`). -/
structure Tokens where
  email : String
  local_id : String
  id_token : String
  refresh_token : String
  deriving Repr, DecidableEq

/-- Outcome of the registration pipeline steps before activation. -/
inductive RegResult where
  | ok (t : Tokens)
  | fail (err : String)
  deriving Repr, DecidableEq

/-- The decoded `GetOrCreateUser` GraphQL response observed by
`BatchRegister._activate_warp_user`: HTTP status, the `__typename` of
`data.getOrCreateUser`, its `uid` and the `error.message` field. -/
structure ActResp where
  status : Nat
  typename : String
  uid : String
  errorMsg : String
  deriving Repr, DecidableEq

/-- Result of `_activate_warp_user`. -/
inductive ActResult where
  | success (uid : String)
  | failure (err : String)
  deriving Repr, DecidableEq

/-- `BatchRegister._activate_warp_user`: fails without a token; on HTTP
200 succeeds only for a `GetOrCreateUserOutput` typename (a
`UserFacingError` or anything else fails with the reported message);
non-200 statuses fail. -/
def activate_warp_user (id_token : String) (resp : ActResp) : ActResult :=
  if id_token = "" then
    .failure "缺少Firebase ID Token"
  else if resp.status = 200 then
    if resp.typename = "GetOrCreateUserOutput" then
      .success resp.uid
    else
      .failure resp.errorMsg
  else
    .failure s!"HTTP {resp.status}"

/-- `BatchRegister._register_single_account` (persistence path): when the
pipeline succeeded, run activation; on activation failure report failure
and touch nothing; on success store an `available` account.  Returns the
success flag and the new store state. -/
def register_single_account (reg : RegResult) (resp : ActResp) (db : Db)
    (now : Int) : Bool × Db :=
  match reg with
  | .fail _ => (false, db)
  | .ok t =>
    match activate_warp_user t.id_token resp with
    | .failure _ => (false, db)
    | .success _ =>
      let res := add_account db ⟨t.email, t.local_id, t.id_token,
                                 t.refresh_token, "available"⟩ now
      (true, res.2)

/-- C4.  An account row is added only when activation succeeds (and then
with status `available`); a `UserFacingError` (or any activation
failure) leaves the store untouched and the run reports failure. -/
theorem register_persists_only_on_activation :
    ∀ (reg : RegResult) (resp : ActResp) (db : Db) (now : Int),
      ((register_single_account reg resp db now).2.rows.length
          ≠ db.rows.length →
        ∃ t uid, reg = .ok t
          ∧ activate_warp_user t.id_token resp = .success uid)
      ∧ (∀ r ∈ (register_single_account reg resp db now).2.rows,
          r ∈ db.rows ∨ r.status = "available")
      ∧ (∀ t, reg = .ok t → resp.status = 200 →
          resp.typename ≠ "GetOrCreateUserOutput" → t.id_token ≠ "" →
          register_single_account reg resp db now = (false, db)) := by
  intro reg resp db now
  refine ⟨?_, ?_, ?_⟩
  · intro hlen
    cases reg with
    | fail e => exact absurd rfl hlen
    | ok t =>
      cases hact : activate_warp_user t.id_token resp with
      | failure e =>
        exfalso
        apply hlen
        simp [register_single_account, hact]
      | success uid => exact ⟨t, uid, rfl, hact⟩
  · intro r hr
    cases reg with
    | fail e => exact Or.inl hr
    | ok t =>
      cases hact : activate_warp_user t.id_token resp with
      | failure e =>
        simp only [register_single_account, hact] at hr
        exact Or.inl hr
      | success uid =>
        simp only [register_single_account, hact, add_account] at hr
        by_cases hdup : db.rows.any (fun q => q.email = t.email)
        · rw [if_pos hdup] at hr
          exact Or.inl hr
        · rw [if_neg hdup] at hr
          simp only [List.mem_append, List.mem_singleton] at hr
          rcases hr with hr | hr
          · exact Or.inl hr
          · subst hr
            exact Or.inr rfl
  · intro t hreg h200 htn htok
    subst hreg
    have hact : activate_warp_user t.id_token resp
        = .failure resp.errorMsg := by
      unfold activate_warp_user
      rw [if_neg htok, if_pos h200, if_neg htn]
    simp [register_single_account, hact]

theorem register_persists_only_on_activation_witness :
    register_single_account
        (.ok ⟨"u@x", "uid1", "tok", "rtok"⟩)
        ⟨200, "UserFacingError", "", "User is blocked"⟩ ⟨[], 1⟩ 0
      = (false, ⟨[], 1⟩)
    ∧ (register_single_account
        (.ok ⟨"u@x", "uid1", "tok", "rtok"⟩)
        ⟨200, "GetOrCreateUserOutput", "uid1", ""⟩ ⟨[], 1⟩ 0).2.rows.length
      = 1 := by
  constructor
  · exact (register_persists_only_on_activation
      (.ok ⟨"u@x", "uid1", "tok", "rtok"⟩)
      ⟨200, "UserFacingError", "", "User is blocked"⟩ ⟨[], 1⟩ 0).2.2
      ⟨"u@x", "uid1", "tok", "rtok"⟩ rfl rfl (by decide) (by decide)
  · decide

/-- The fields of the GraphQL `requestLimitInfo` object read by
`QuotaChecker._parse_quota_info` (`data.get(...)` with the code's
defaults). -/
structure QuotaData where
  isUnlimited : Bool
  nextRefreshTime : Option String
  requestLimit : Int
  requestsUsedSinceLastRefresh : Int
  requestLimitRefreshDuration : String
  isUnlimitedAutosuggestions : Bool
  acceptedAutosuggestionsLimit : Int
  acceptedAutosuggestionsSinceLastRefresh : Int
  isUnlimitedVoice : Bool
  voiceRequestLimit : Int
  voiceRequestsUsedSinceLastRefresh : Int
  isUnlimitedCodebaseIndices : Bool
  maxCodebaseIndices : Int
  maxFilesPerRepo : Int
  deriving Repr, DecidableEq

/-- The `QuotaInfo` dataclass of `quota_checker.py` (timestamps as
integer seconds, percentages as exact rationals). -/
structure QuotaInfo where
  is_unlimited : Bool
  next_refresh_time : Option Int
  request_limit : Int
  requests_used_since_last_refresh : Int
  request_limit_refresh_duration : String
  remaining_requests : Int
  usage_percentage : ℚ
  is_unlimited_autosuggestions : Bool
  accepted_autosuggestions_limit : Int
  accepted_autosuggestions_since_last_refresh : Int
  is_unlimited_voice : Bool
  voice_request_limit : Int
  voice_requests_used_since_last_refresh : Int
  is_unlimited_codebase_indices : Bool
  max_codebase_indices : Int
  max_files_per_repo : Int
  checked_at : Int
  deriving Repr, DecidableEq

/-- `QuotaChecker._parse_quota_info`.  The library call
`datetime.fromisoformat` is passed in as `fromiso` (`none` = parse
failure, swallowed by the bare `except`); the code first replaces `Z`
with a numeric UTC offset, and `if next_refresh_str:` skips `None` and
the empty string.  `remaining = max(0, limit - used)` and
`usage = used/limit*100` when `limit > 0`, else `0`. -/
def parse_quota_info (fromiso : String → Option Int) (data : QuotaData)
    (now : Int) : QuotaInfo :=
  let next_refresh_time :=
    match data.nextRefreshTime with
    | none => none
    | some s => if s = "" then none else fromiso (s.replace "Z" "+00:00")
  let request_limit := data.requestLimit
  let requests_used := data.requestsUsedSinceLastRefresh
  let remaining_requests := max 0 (request_limit - requests_used)
  let usage_percentage : ℚ :=
    if request_limit > 0 then
      (requests_used : ℚ) / (request_limit : ℚ) * 100
    else 0
  { is_unlimited := data.isUnlimited
    next_refresh_time := next_refresh_time
    request_limit := request_limit
    requests_used_since_last_refresh := requests_used
    request_limit_refresh_duration := data.requestLimitRefreshDuration
    remaining_requests := remaining_requests
    usage_percentage := usage_percentage
    is_unlimited_autosuggestions := data.isUnlimitedAutosuggestions
    accepted_autosuggestions_limit := data.acceptedAutosuggestionsLimit
    accepted_autosuggestions_since_last_refresh :=
      data.acceptedAutosuggestionsSinceLastRefresh
    is_unlimited_voice := data.isUnlimitedVoice
    voice_request_limit := data.voiceRequestLimit
    voice_requests_used_since_last_refresh :=
      data.voiceRequestsUsedSinceLastRefresh
    is_unlimited_codebase_indices := data.isUnlimitedCodebaseIndices
    max_codebase_indices := data.maxCodebaseIndices
    max_files_per_repo := data.maxFilesPerRepo
    checked_at := now }

/-- C9.  The quota snapshot satisfies `remaining = max(0, L - U)`,
`usage_percentage = U/L*100` for `L > 0` and `0` for `L = 0`, and a
next-refresh string whose parse fails leaves the field absent while the
call still produces a full snapshot. -/
theorem parse_quota_info_spec :
    ∀ (fromiso : String → Option Int) (data : QuotaData) (now : Int),
      (parse_quota_info fromiso data now).remaining_requests
        = max 0 (data.requestLimit - data.requestsUsedSinceLastRefresh)
      ∧ (data.requestLimit > 0 →
          (parse_quota_info fromiso data now).usage_percentage
            = (data.requestsUsedSinceLastRefresh : ℚ)
                / (data.requestLimit : ℚ) * 100)
      ∧ (data.requestLimit = 0 →
          (parse_quota_info fromiso data now).usage_percentage = 0)
      ∧ (∀ s, data.nextRefreshTime = some s → s ≠ "" →
          fromiso (s.replace "Z" "+00:00") = none →
          (parse_quota_info fromiso data now).next_refresh_time = none)
      ∧ (parse_quota_info fromiso data now).request_limit
          = data.requestLimit := by
  intro fromiso data now
  refine ⟨rfl, ?_, ?_, ?_, rfl⟩
  · intro hpos
    simp [parse_quota_info, hpos]
  · intro hzero
    simp [parse_quota_info, hzero]
  · intro s hs hne hfail
    simp [parse_quota_info, hs, hne, hfail]

theorem parse_quota_info_spec_witness :
    (parse_quota_info (fun _ => none)
        ⟨false, some "2025-01-01T00:00:00Z", 100, 25, "WEEKLY", false, 0, 0,
         false, 0, 0, false, 0, 0⟩ 0).remaining_requests = 75
    ∧ (parse_quota_info (fun _ => none)
        ⟨false, some "2025-01-01T00:00:00Z", 100, 25, "WEEKLY", false, 0, 0,
         false, 0, 0, false, 0, 0⟩ 0).next_refresh_time = none
    ∧ (parse_quota_info (fun _ => none)
        ⟨false, none, 0, 7, "WEEKLY", false, 0, 0,
         false, 0, 0, false, 0, 0⟩ 0).usage_percentage = 0 := by
  have h := parse_quota_info_spec (fun _ => none)
    ⟨false, some "2025-01-01T00:00:00Z", 100, 25, "WEEKLY", false, 0, 0,
     false, 0, 0, false, 0, 0⟩ 0
  have h0 := parse_quota_info_spec (fun _ => none)
    ⟨false, none, 0, 7, "WEEKLY", false, 0, 0,
     false, 0, 0, false, 0, 0⟩ 0
  refine ⟨?_, ?_, ?_⟩
  · rw [h.1]
    decide
  · exact h.2.2.2.1 "2025-01-01T00:00:00Z" rfl (by decide) rfl
  · exact h0.2.2.1 rfl

/-- Request body of `POST /api/accounts/allocate` (`main.py`,
`AllocateAccountRequest`): optional session id and a `count` accepted in
1..10 (default 1). -/
structure AllocateAccountRequest where
  session_id : Option String
  count : Nat
  deriving Repr, DecidableEq

/-- The pool-sizing configuration consumed by the Pool Manager. -/
structure PoolConfig where
  ACCOUNTS_PER_REQUEST : Nat
  deriving Repr, DecidableEq

/-- `request_id or f"session_..."` — Python `or` also replaces the empty
string. -/
def sessionIdOf (genSid : String) : Option String → String
  | none => genSid
  | some s => if s = "" then genSid else s

/-- `PoolManager.allocate_accounts_for_request`: derive the session id,
run `_ensure_minimum_accounts` (modelled as a state transformer), ask
the store for `config.ACCOUNTS_PER_REQUEST` accounts, and on failure run
`_emergency_replenish` and retry once.  Token refreshing of the returned
accounts and the in-memory session map are outside this model. -/
def allocate_accounts_for_request (cfg : PoolConfig)
    (ensureMin replenish : Db → Db) (genSid : String)
    (request_id : Option String) (db : Db) (now : Int) :
    Option (List Row) × Db :=
  let sid := sessionIdOf genSid request_id
  let db1 := ensureMin db
  let res1 := allocate_accounts_for_session db1 sid
    cfg.ACCOUNTS_PER_REQUEST now
  if res1.1.isEmpty then
    let db3 := replenish res1.2
    let res2 := allocate_accounts_for_session db3 sid
      cfg.ACCOUNTS_PER_REQUEST now
    if res2.1.isEmpty then (none, res2.2) else (some res2.1, res2.2)
  else (some res1.1, res1.2)

/-- The `/api/accounts/allocate` handler (`main.py`,
`allocate_accounts`): forwards only `request.session_id` to the Pool
Manager; `request.count` is never read. -/
def allocate_endpoint (cfg : PoolConfig) (ensureMin replenish : Db → Db)
    (genSid : String) (req : AllocateAccountRequest) (db : Db)
    (now : Int) : Option (List Row) × Db :=
  allocate_accounts_for_request cfg ensureMin replenish genSid
    req.session_id db now

/-- C10.  The request's `count` field is ignored: the endpoint's result
is identical for any two counts, and a successful allocation always
returns exactly `ACCOUNTS_PER_REQUEST` accounts (under primary-key
uniqueness of the states the store allocates from). -/
theorem allocate_endpoint_ignores_count :
    ∀ (cfg : PoolConfig) (ensureMin replenish : Db → Db) (genSid : String)
      (db : Db) (now : Int) (req : AllocateAccountRequest) (c₂ : Nat)
      (accs : List Row),
      allocate_endpoint cfg ensureMin replenish genSid req db now
        = allocate_endpoint cfg ensureMin replenish genSid
            ⟨req.session_id, c₂⟩ db now
      ∧ (((ensureMin db).rows.map Row.id).Nodup →
         ((replenish (allocate_accounts_for_session (ensureMin db)
              (sessionIdOf genSid req.session_id)
              cfg.ACCOUNTS_PER_REQUEST now).2).rows.map Row.id).Nodup →
         (allocate_endpoint cfg ensureMin replenish genSid req db now).1
            = some accs →
         accs.length = cfg.ACCOUNTS_PER_REQUEST) := by
  intro cfg ensureMin replenish genSid db now req c₂ accs
  constructor
  · rfl
  · intro h1 h2 heq
    simp only [allocate_endpoint, allocate_accounts_for_request] at heq
    have key := allocate_accounts_atomic (ensureMin db)
      (sessionIdOf genSid req.session_id) cfg.ACCOUNTS_PER_REQUEST now h1
    by_cases hemp : (allocate_accounts_for_session (ensureMin db)
        (sessionIdOf genSid req.session_id)
        cfg.ACCOUNTS_PER_REQUEST now).1.isEmpty
    · rw [if_pos hemp] at heq
      have key2 := allocate_accounts_atomic
        (replenish (allocate_accounts_for_session (ensureMin db)
          (sessionIdOf genSid req.session_id)
          cfg.ACCOUNTS_PER_REQUEST now).2)
        (sessionIdOf genSid req.session_id) cfg.ACCOUNTS_PER_REQUEST now h2
      by_cases hemp2 : (allocate_accounts_for_session
          (replenish (allocate_accounts_for_session (ensureMin db)
            (sessionIdOf genSid req.session_id)
            cfg.ACCOUNTS_PER_REQUEST now).2)
          (sessionIdOf genSid req.session_id)
          cfg.ACCOUNTS_PER_REQUEST now).1.isEmpty
      · rw [if_pos hemp2] at heq
        simp at heq
      · rw [if_neg hemp2] at heq
        simp only [Prod.fst] at heq
        by_cases hlt : ((replenish (allocate_accounts_for_session
            (ensureMin db) (sessionIdOf genSid req.session_id)
            cfg.ACCOUNTS_PER_REQUEST now).2).rows.filter
              (fun r => r.status = "available")).length
            < cfg.ACCOUNTS_PER_REQUEST
        · rw [key2.1 hlt] at hemp2 heq
          simp at hemp2
        · have hlen := (key2.2 (by omega)).1
          have haccs : accs = (allocate_accounts_for_session
              (replenish (allocate_accounts_for_session (ensureMin db)
                (sessionIdOf genSid req.session_id)
                cfg.ACCOUNTS_PER_REQUEST now).2)
              (sessionIdOf genSid req.session_id)
              cfg.ACCOUNTS_PER_REQUEST now).1 := by
            injection heq with h
            exact h.symm
          rw [haccs]
          exact hlen
    · rw [if_neg hemp] at heq
      simp only [Prod.fst] at heq
      by_cases hlt : ((ensureMin db).rows.filter
          (fun r => r.status = "available")).length
          < cfg.ACCOUNTS_PER_REQUEST
      · rw [key.1 hlt] at hemp
        simp at hemp
      · have hlen := (key.2 (by omega)).1
        have haccs : accs = (allocate_accounts_for_session (ensureMin db)
            (sessionIdOf genSid req.session_id)
            cfg.ACCOUNTS_PER_REQUEST now).1 := by
          injection heq with h
          exact h.symm
        rw [haccs]
        exact hlen

theorem allocate_endpoint_ignores_count_witness :
    allocate_endpoint ⟨1⟩ id id "g" ⟨some "s", 3⟩ lruDb 99
      = allocate_endpoint ⟨1⟩ id id "g" ⟨some "s", 9⟩ lruDb 99
    ∧ (allocate_endpoint ⟨1⟩ id id "g" ⟨some "s", 3⟩ lruDb 99).1
        = some [allocUpdate "s" 99 (lruRow 1 10)]
    ∧ [allocUpdate "s" 99 (lruRow 1 10)].length = 1 := by
  refine ⟨(allocate_endpoint_ignores_count ⟨1⟩ id id "g" lruDb 99
      ⟨some "s", 3⟩ 9 []).1, by decide, ?_⟩
  exact (allocate_endpoint_ignores_count ⟨1⟩ id id "g" lruDb 99
      ⟨some "s", 3⟩ 9 [allocUpdate "s" 99 (lruRow 1 10)]).2
    (by decide) (by decide) (by decide)

/-- Python's `str.split(sep)` for a single-character separator
(`id_token.split('.')`): splitting the empty string gives `[""]`,
adjacent separators give empty segments. -/
def splitOnChar (sep : Char) : List Char → List (List Char)
  | [] => [[]]
  | c :: rest =>
    let r := splitOnChar sep rest
    if c = sep then [] :: r
    else
      match r with
      | h :: t => (c :: h) :: t
      | [] => [[c]]

/-- The urlsafe alphabet translation done by `base64.urlsafe_b64decode`
before decoding. -/
def b64Translate (c : Char) : Char :=
  if c = '-' then '+' else if c = '_' then '/' else c

/-- Value of one base64 alphabet character (`none` for anything outside
the alphabet; pad handling lives in the quad loop below). -/
def b64Val (c : Char) : Option Nat :=
  if 65 ≤ c.toNat ∧ c.toNat ≤ 90 then some (c.toNat - 65)
  else if 97 ≤ c.toNat ∧ c.toNat ≤ 122 then some (c.toNat - 97 + 26)
  else if 48 ≤ c.toNat ∧ c.toNat ≤ 57 then some (c.toNat - 48 + 52)
  else if c = '+' then some 62
  else if c = '/' then some 63
  else none

/-- The quad loop of CPython's legacy (non-strict) `binascii.a2b_base64`:
`quad_pos` counts the data characters of the current 4-character group,
`leftchar` holds their leftover bits, and `pads` counts pad characters
seen while `quad_pos ≥ 2`.  A `=` is ignored while `quad_pos < 2`; once
`quad_pos ≥ 2`, a pad sequence that completes the group
(`quad_pos + pads ≥ 4`) ends decoding, discarding the rest of the input.
Non-alphabet characters are discarded without resetting `pads`; a data
character resets `pads`.  Input ending with an incomplete group fails
(`quad_pos = 1`: "number of data characters cannot be 1 more than a
multiple of 4"; `quad_pos ∈ {2, 3}` without enough pads: "Incorrect
padding"). -/
def a2bBase64Legacy : List Char → Nat → Nat → Nat → List Nat →
    Option (List Nat)
  | [], quad_pos, _, _, acc =>
    if quad_pos = 0 then some acc.reverse else none
  | c :: rest, quad_pos, leftchar, pads, acc =>
    if c = '=' then
      if 2 ≤ quad_pos then
        if 4 ≤ quad_pos + (pads + 1) then some acc.reverse
        else a2bBase64Legacy rest quad_pos leftchar (pads + 1) acc
      else a2bBase64Legacy rest quad_pos leftchar pads acc
    else
      match b64Val (b64Translate c) with
      | none => a2bBase64Legacy rest quad_pos leftchar pads acc
      | some v =>
        match quad_pos with
        | 0 => a2bBase64Legacy rest 1 v 0 acc
        | 1 => a2bBase64Legacy rest 2 (v % 16) 0
            ((leftchar * 4 + v / 16) :: acc)
        | 2 => a2bBase64Legacy rest 3 (v % 4) 0
            ((leftchar * 16 + v / 4) :: acc)
        | _ => a2bBase64Legacy rest 0 0 0 ((leftchar * 64 + v) :: acc)

/-- Python's `base64.urlsafe_b64decode` on a `str` argument: fails on
non-ASCII input, translates `-`/`_` to `+`/`/`, then runs the legacy
quad decoder above. -/
def base64urlDecode (cs : List Char) : Option (List Nat) :=
  if cs.any (fun c => 128 ≤ c.toNat) then none
  else a2bBase64Legacy cs 0 0 0 []

/-- UTF-8 continuation byte. -/
def isContByte (b : Nat) : Prop := 128 ≤ b ∧ b ≤ 191

instance (b : Nat) : Decidable (isContByte b) := by
  unfold isContByte; infer_instance

/-- Strict UTF-8 decoding (`bytes.decode('utf-8')`): rejects invalid
start bytes, overlong encodings, surrogates and out-of-range values. -/
def utf8Decode : List Nat → Option (List Char)
  | [] => some []
  | b :: rest =>
    if b < 128 then
      (utf8Decode rest).map (fun cs => Char.ofNat b :: cs)
    else if b < 194 then none
    else if b ≤ 223 then
      match rest with
      | c1 :: rest' =>
        if isContByte c1 then
          (utf8Decode rest').map
            (fun cs => Char.ofNat ((b - 192) * 64 + (c1 - 128)) :: cs)
        else none
      | [] => none
    else if b ≤ 239 then
      match rest with
      | c1 :: c2 :: rest' =>
        let lo1 := if b = 224 then 160 else 128
        let hi1 := if b = 237 then 159 else 191
        if lo1 ≤ c1 ∧ c1 ≤ hi1 ∧ isContByte c2 then
          (utf8Decode rest').map (fun cs =>
            Char.ofNat ((b - 224) * 4096 + (c1 - 128) * 64 + (c2 - 128)) :: cs)
        else none
      | _ => none
    else if b ≤ 244 then
      match rest with
      | c1 :: c2 :: c3 :: rest' =>
        let lo1 := if b = 240 then 144 else 128
        let hi1 := if b = 244 then 143 else 191
        if lo1 ≤ c1 ∧ c1 ≤ hi1 ∧ isContByte c2 ∧ isContByte c3 then
          (utf8Decode rest').map (fun cs =>
            Char.ofNat ((b - 240) * 262144 + (c1 - 128) * 4096
              + (c2 - 128) * 64 + (c3 - 128)) :: cs)
        else none
      | _ => none
    else none

/-- Exact decimal number `m * 10 ^ e`, the value of a JSON number
literal (kept unnormalized so that it evaluates by kernel reduction). -/
structure DecNum where
  m : Int
  e : Int
  deriving Repr, DecidableEq

/-- Value of a decimal number as a rational. -/
def DecNum.toRat (d : DecNum) : ℚ := (d.m : ℚ) * 10 ^ d.e

/-- Comparison `d ≤ c` against an integer, by scaling to a common
denominator. -/
def DecNum.leConst (d : DecNum) (c : Int) : Bool :=
  if 0 ≤ d.e then d.m * 10 ^ d.e.toNat ≤ c
  else d.m ≤ c * 10 ^ (-d.e).toNat

/-- JSON values as produced by Python's `json.loads` (which also accepts
the `NaN`, `Infinity` and `-Infinity` extensions). -/
inductive Json where
  | null
  | jbool (b : Bool)
  | num (d : DecNum)
  | nan
  | inf
  | ninf
  | str (s : List Char)
  | arr (elems : List Json)
  | obj (kvs : List (List Char × Json))

/-- `dict.get`: duplicate keys in the JSON text keep the last value. -/
def objGet (kvs : List (List Char × Json)) (k : List Char) : Option Json :=
  match kvs with
  | [] => none
  | (k', v) :: rest =>
    match objGet rest k with
    | some r => some r
    | none => if k' = k then some v else none

/-- JSON whitespace skipping (space, tab, newline, carriage return). -/
def skipWs : List Char → List Char
  | c :: cs =>
    if c = ' ' ∨ c = '\t' ∨ c = '\n' ∨ c.toNat = 13 then skipWs cs
    else c :: cs
  | [] => []

def hexVal (c : Char) : Option Nat :=
  if 48 ≤ c.toNat ∧ c.toNat ≤ 57 then some (c.toNat - 48)
  else if 97 ≤ c.toNat ∧ c.toNat ≤ 102 then some (c.toNat - 97 + 10)
  else if 65 ≤ c.toNat ∧ c.toNat ≤ 70 then some (c.toNat - 65 + 10)
  else none

def digitVal (c : Char) : Option Nat :=
  if 48 ≤ c.toNat ∧ c.toNat ≤ 57 then some (c.toNat - 48) else none

/-- Single-character JSON string escapes. -/
def escChar (e : Char) : Option Char :=
  if e = '"' then some '"'
  else if e = '\\' then some '\\'
  else if e = '/' then some '/'
  else if e = 'b' then some (Char.ofNat 8)
  else if e = 'f' then some (Char.ofNat 12)
  else if e = 'n' then some '\n'
  else if e = 'r' then some (Char.ofNat 13)
  else if e = 't' then some '\t'
  else none

/-- JSON string body after the opening quote: returns the decoded
characters and the input after the closing quote.  Raw control
characters are rejected (strict mode); `\uXXXX` escapes combine
surrogate pairs, and a lone surrogate is mapped to U+FFFD (Python keeps
the lone surrogate in the `str`; the difference cannot affect a
comparison with the key `exp` or a numeric value). -/
def parseStringBody : Nat → List Char → Option (List Char × List Char)
  | 0, _ => none
  | Nat.succ _, [] => none
  | Nat.succ fuel, c :: cs =>
    if c = '"' then some ([], cs)
    else if c = '\\' then
      match cs with
      | [] => none
      | e :: cs' =>
        if e = 'u' then
          match cs' with
          | h1 :: h2 :: h3 :: h4 :: cs'' =>
            match hexVal h1, hexVal h2, hexVal h3, hexVal h4 with
            | some a, some b, some c2, some d =>
              let n := ((a * 16 + b) * 16 + c2) * 16 + d
              if 55296 ≤ n ∧ n ≤ 56319 then
                match cs'' with
                | '\\' :: 'u' :: g1 :: g2 :: g3 :: g4 :: cs3 =>
                  match hexVal g1, hexVal g2, hexVal g3, hexVal g4 with
                  | some p, some q, some r2, some s =>
                    let mlo := ((p * 16 + q) * 16 + r2) * 16 + s
                    if 56320 ≤ mlo ∧ mlo ≤ 57343 then
                      (parseStringBody fuel cs3).map (fun pr =>
                        (Char.ofNat (65536 + (n - 55296) * 1024
                          + (mlo - 56320)) :: pr.1, pr.2))
                    else
                      (parseStringBody fuel cs'').map (fun pr =>
                        (Char.ofNat 65533 :: pr.1, pr.2))
                  | _, _, _, _ =>
                    (parseStringBody fuel cs'').map (fun pr =>
                      (Char.ofNat 65533 :: pr.1, pr.2))
                | _ =>
                  (parseStringBody fuel cs'').map (fun pr =>
                    (Char.ofNat 65533 :: pr.1, pr.2))
              else if 56320 ≤ n ∧ n ≤ 57343 then
                (parseStringBody fuel cs'').map (fun pr =>
                  (Char.ofNat 65533 :: pr.1, pr.2))
              else
                (parseStringBody fuel cs'').map (fun pr =>
                  (Char.ofNat n :: pr.1, pr.2))
            | _, _, _, _ => none
          | _ => none
        else
          match escChar e with
          | some ch =>
            (parseStringBody fuel cs').map (fun pr => (ch :: pr.1, pr.2))
          | none => none
    else if c.toNat < 32 then none
    else (parseStringBody fuel cs).map (fun pr => (c :: pr.1, pr.2))

/-- Greedy digit run. -/
def takeDigits : List Char → List Nat × List Char
  | c :: cs =>
    match digitVal c with
    | some d =>
      let td := takeDigits cs
      (d :: td.1, td.2)
    | none => ([], c :: cs)
  | [] => ([], [])

def digitsToNat (ds : List Nat) : Nat :=
  ds.foldl (fun a d => a * 10 + d) 0

/-- Build the exact value of a JSON number literal. -/
def mkNumJson (neg : Bool) (intDigits fracDigits : List Nat)
    (expNeg : Bool) (expVal : Nat) : Json :=
  let mAbs : Int := (digitsToNat (intDigits ++ fracDigits) : Int)
  let m : Int := if neg then -mAbs else mAbs
  let e : Int :=
    (if expNeg then -(expVal : Int) else (expVal : Int))
      - (fracDigits.length : Int)
  .num ⟨m, e⟩

def parseExpDigits (cs : List Char) : Option (Nat × List Char) :=
  let td := takeDigits cs
  if td.1.isEmpty then none else some (digitsToNat td.1, td.2)

/-- Optional exponent part of a JSON number. -/
def parseNumberTail (neg : Bool) (intDigits fracDigits : List Nat) :
    List Char → Option (Json × List Char)
  | c :: cs' =>
    if c = 'e' ∨ c = 'E' then
      match cs' with
      | s :: cs'' =>
        if s = '+' then
          (parseExpDigits cs'').map (fun pr =>
            (mkNumJson neg intDigits fracDigits false pr.1, pr.2))
        else if s = '-' then
          (parseExpDigits cs'').map (fun pr =>
            (mkNumJson neg intDigits fracDigits true pr.1, pr.2))
        else
          (parseExpDigits (s :: cs'')).map (fun pr =>
            (mkNumJson neg intDigits fracDigits false pr.1, pr.2))
      | [] => none
    else some (mkNumJson neg intDigits fracDigits false 0, c :: cs')
  | [] => some (mkNumJson neg intDigits fracDigits false 0, [])

/-- JSON number grammar: `-?(0|[1-9][0-9]*)(.[0-9]+)?([eE][+-]?[0-9]+)?`
(a leading `0` takes no further digits, as in Python's decoder). -/
def parseNumber (neg : Bool) : List Char → Option (Json × List Char)
  | c :: cs' =>
    match digitVal c with
    | none => none
    | some d0 =>
      let ip : List Nat × List Char :=
        if d0 = 0 then ([0], cs')
        else
          let td := takeDigits cs'
          (d0 :: td.1, td.2)
      match ip.2 with
      | '.' :: cs2 =>
        let td := takeDigits cs2
        if td.1.isEmpty then none
        else parseNumberTail neg ip.1 td.1 td.2
      | rest1 => parseNumberTail neg ip.1 [] rest1
  | [] => none

/-- Parser mode: a single value, the members of an object after `{`, or
the elements of an array after `[` (`first` distinguishes the position
right after the opening bracket, where an empty collection may close). -/
inductive PMode where
  | value
  | members (first : Bool)
  | elements (first : Bool)

/-- Recursive-descent JSON parser (strict grammar of Python's
`json.loads`, plus its `NaN`/`Infinity`/`-Infinity` extensions), driven
by explicit fuel so that it evaluates by kernel reduction; the fuel also
plays the role of Python's recursion limit (exhaustion is a parse
failure).  In `members`/`elements` mode the result is wrapped as
`Json.obj`/`Json.arr`. -/
def parseJ : Nat → PMode → List Char → Option (Json × List Char)
  | 0, _, _ => none
  | Nat.succ fuel, .value, cs =>
    match skipWs cs with
    | [] => none
    | c :: cs' =>
      if c = '{' then parseJ fuel (.members true) cs'
      else if c = '[' then parseJ fuel (.elements true) cs'
      else if c = '"' then
        (parseStringBody (cs'.length + 1) cs').map (fun pr =>
          (Json.str pr.1, pr.2))
      else if c = 't' then
        if isPrefixOfChars ['r', 'u', 'e'] cs' then
          some (Json.jbool true, cs'.drop 3)
        else none
      else if c = 'f' then
        if isPrefixOfChars ['a', 'l', 's', 'e'] cs' then
          some (Json.jbool false, cs'.drop 4)
        else none
      else if c = 'n' then
        if isPrefixOfChars ['u', 'l', 'l'] cs' then
          some (Json.null, cs'.drop 3)
        else none
      else if c = 'N' then
        if isPrefixOfChars ['a', 'N'] cs' then some (Json.nan, cs'.drop 2)
        else none
      else if c = 'I' then
        if isPrefixOfChars ['n', 'f', 'i', 'n', 'i', 't', 'y'] cs' then
          some (Json.inf, cs'.drop 7)
        else none
      else if c = '-' then
        if isPrefixOfChars ['I', 'n', 'f', 'i', 'n', 'i', 't', 'y'] cs' then
          some (Json.ninf, cs'.drop 8)
        else parseNumber true cs'
      else parseNumber false (c :: cs')
  | Nat.succ fuel, .members first, cs =>
    match skipWs cs with
    | [] => none
    | c :: cs' =>
      if c = '}' then
        if first then some (Json.obj [], cs') else none
      else if c = '"' then
        match parseStringBody (cs'.length + 1) cs' with
        | none => none
        | some (key, r1) =>
          match skipWs r1 with
          | ':' :: r2 =>
            match parseJ fuel .value r2 with
            | none => none
            | some (v, r3) =>
              match skipWs r3 with
              | ',' :: r4 =>
                match parseJ fuel (.members false) r4 with
                | some (Json.obj tail, r5) =>
                  some (Json.obj ((key, v) :: tail), r5)
                | _ => none
              | '}' :: r4 => some (Json.obj [(key, v)], r4)
              | _ => none
          | _ => none
      else none
  | Nat.succ fuel, .elements first, cs =>
    match skipWs cs with
    | [] => none
    | c :: cs' =>
      if c = ']' then
        if first then some (Json.arr [], cs') else none
      else
        match parseJ fuel .value (c :: cs') with
        | none => none
        | some (v, r1) =>
          match skipWs r1 with
          | ',' :: r2 =>
            match parseJ fuel (.elements false) r2 with
            | some (Json.arr tail, r3) => some (Json.arr (v :: tail), r3)
            | _ => none
          | ']' :: r2 => some (Json.arr [v], r2)
          | _ => none

/-- `json.loads`: one value, then only whitespace may remain. -/
def json_loads (cs : List Char) : Option Json :=
  match parseJ (cs.length * 4 + 16) .value cs with
  | some (v, rest) => if (skipWs rest).isEmpty then some v else none
  | none => none

/-- The usable forms of the `exp` claim: a number, or one of the float
extensions. -/
inductive ExpVal where
  | num (d : DecNum)
  | nan
  | inf
  | ninf
  deriving Repr, DecidableEq

/-- How `is_token_expired` can use `payload.get('exp')`: `if not
exp_timestamp` treats `None`, `False`, `0`, `""`, `[]`, `{}` as missing
(→ expired); `exp_timestamp - current_time` then type-errors (→ expired,
via the bare except) on anything but a number or `True` (which Python
treats as `1`). -/
def expOfJson : Json → Option ExpVal
  | .num d => if d.m = 0 then none else some (.num d)
  | .jbool b => if b then some (.num ⟨1, 0⟩) else none
  | .nan => some .nan
  | .inf => some .inf
  | .ninf => some .ninf
  | _ => none

/-- `payload_part += '=' * (4 - len(payload_part) % 4)` — appends 1 to 4
pad characters, computed from the raw segment length; the legacy decoder
then either finishes the final quad at them, ignores them (full final
quad), or still fails when the data characters do not line up. -/
def jwtPayloadPadded (p : List Char) : List Char :=
  p ++ List.replicate (4 - p.length % 4) '='

/-- `TokenRefreshService.is_token_expired`: an empty token, a token
without exactly 3 dot-separated segments, and any decode/parse/type
failure (caught by the bare except) are expired; otherwise the token is
expired iff `exp - now ≤ buffer_minutes * 60` — evaluated exactly as
`exp ≤ now + buffer_minutes*60` — with `NaN` and `Infinity` comparing
not-expired and `-Infinity` expired, as in Python float comparison.
Time is modelled at second granularity. -/
def is_token_expired (id_token : String) (now : Int)
    (buffer_minutes : Int) : Bool :=
  if id_token = "" then true
  else
    match splitOnChar '.' id_token.data with
    | [_, payload_part, _] =>
      match base64urlDecode (jwtPayloadPadded payload_part) with
      | none => true
      | some bytes =>
        match utf8Decode bytes with
        | none => true
        | some chars =>
          match json_loads chars with
          | none => true
          | some j =>
            match j with
            | .obj kvs =>
              match objGet kvs ['e', 'x', 'p'] with
              | none => true
              | some v =>
                match expOfJson v with
                | none => true
                | some (.num d) =>
                  DecNum.leConst d (now + buffer_minutes * 60)
                | some .nan => false
                | some .inf => false
                | some .ninf => true
            | _ => true
    | _ => true

/-- The specification's reading of a token: decode the middle base64url
segment (padded), parse it as JSON, and read its `exp` claim; `none`
when any step fails. -/
def jwtExpClaim (id_token : String) : Option ExpVal :=
  match splitOnChar '.' id_token.data with
  | [_, payload_part, _] =>
    match base64urlDecode (jwtPayloadPadded payload_part) with
    | none => none
    | some bytes =>
      match utf8Decode bytes with
      | none => none
      | some chars =>
        match json_loads chars with
        | none => none
        | some j =>
          match j with
          | .obj kvs =>
            match objGet kvs ['e', 'x', 'p'] with
            | none => none
            | some v => expOfJson v
          | _ => none
  | _ => none

/-- A token whose claim extraction fails at any stage is reported
expired. -/
lemma tokenExpired_of_claim_none (tok : String) (now buf : Int)
    (h : jwtExpClaim tok = none) : is_token_expired tok now buf = true := by
  unfold is_token_expired
  by_cases hemp : tok = ""
  · rw [if_pos hemp]
  · rw [if_neg hemp]
    unfold jwtExpClaim at h
    cases hsplit : splitOnChar '.' tok.data with
    | nil => rfl
    | cons a t1 =>
      rw [hsplit] at h
      cases t1 with
      | nil => rfl
      | cons b t2 =>
        cases t2 with
        | nil => rfl
        | cons c t3 =>
          cases t3 with
          | cons d t4 => rfl
          | nil =>
            conv_lhs => whnf
            conv at h => lhs; whnf
            cases hb : base64urlDecode (jwtPayloadPadded b) with
            | none => rfl
            | some bytes =>
              rw [hb] at h
              conv_lhs => whnf
              conv at h => lhs; whnf
              cases hu : utf8Decode bytes with
              | none => rfl
              | some chars =>
                rw [hu] at h
                conv_lhs => whnf
                conv at h => lhs; whnf
                cases hj : json_loads chars with
                | none => rfl
                | some j =>
                  rw [hj] at h
                  conv_lhs => whnf
                  conv at h => lhs; whnf
                  cases j with
                  | obj kvs =>
                    conv_lhs => whnf
                    conv at h => lhs; whnf
                    cases hg : objGet kvs ['e', 'x', 'p'] with
                    | none => rfl
                    | some v =>
                      rw [hg] at h
                      have h2 : expOfJson v = none := h
                      conv_lhs => whnf
                      rw [h2]
                  | null => rfl
                  | jbool b2 => rfl
                  | num d2 => rfl
                  | nan => rfl
                  | inf => rfl
                  | ninf => rfl
                  | str s2 => rfl
                  | arr es => rfl

/-- A token with a numeric claim is expired exactly by the scaled
comparison. -/
lemma tokenExpired_of_claim_num (tok : String) (now buf : Int) (d : DecNum)
    (h : jwtExpClaim tok = some (.num d)) :
    is_token_expired tok now buf = DecNum.leConst d (now + buf * 60) := by
  unfold is_token_expired
  by_cases hemp : tok = ""
  · exfalso
    subst hemp
    have hnone : jwtExpClaim "" = none := by decide
    rw [hnone] at h
    exact Option.noConfusion h
  · rw [if_neg hemp]
    unfold jwtExpClaim at h
    cases hsplit : splitOnChar '.' tok.data with
    | nil =>
      rw [hsplit] at h
      exact absurd h (by simp)
    | cons a t1 =>
      rw [hsplit] at h
      cases t1 with
      | nil => exact absurd h (by simp)
      | cons b t2 =>
        cases t2 with
        | nil => exact absurd h (by simp)
        | cons c t3 =>
          cases t3 with
          | cons e t4 => exact absurd h (by simp)
          | nil =>
            conv_lhs => whnf
            conv at h => lhs; whnf
            cases hb : base64urlDecode (jwtPayloadPadded b) with
            | none =>
              rw [hb] at h
              exact absurd h (by simp)
            | some bytes =>
              rw [hb] at h
              conv_lhs => whnf
              conv at h => lhs; whnf
              cases hu : utf8Decode bytes with
              | none =>
                rw [hu] at h
                exact absurd h (by simp)
              | some chars =>
                rw [hu] at h
                conv_lhs => whnf
                conv at h => lhs; whnf
                cases hj : json_loads chars with
                | none =>
                  rw [hj] at h
                  exact absurd h (by simp)
                | some j =>
                  rw [hj] at h
                  conv_lhs => whnf
                  conv at h => lhs; whnf
                  cases j with
                  | obj kvs =>
                    conv_lhs => whnf
                    conv at h => lhs; whnf
                    cases hg : objGet kvs ['e', 'x', 'p'] with
                    | none =>
                      rw [hg] at h
                      exact absurd h (by simp)
                    | some v =>
                      rw [hg] at h
                      have h2 : expOfJson v = some (ExpVal.num d) := h
                      conv_lhs => whnf
                      rw [h2]
                  | null => exact absurd h (by simp)
                  | jbool b2 => exact absurd h (by simp)
                  | num d2 => exact absurd h (by simp)
                  | nan => exact absurd h (by simp)
                  | inf => exact absurd h (by simp)
                  | ninf => exact absurd h (by simp)
                  | str s2 => exact absurd h (by simp)
                  | arr es => exact absurd h (by simp)

/-- The scaled integer comparison agrees with the rational value. -/
lemma leConst_iff (d : DecNum) (c : Int) :
    DecNum.leConst d c = true ↔ d.toRat ≤ (c : ℚ) := by
  unfold DecNum.leConst DecNum.toRat
  by_cases he : 0 ≤ d.e
  · rw [if_pos he]
    simp only [decide_eq_true_eq]
    have h10 : ((10 : ℚ) ^ d.e) = ((10 : ℚ) ^ d.e.toNat) := by
      rw [← zpow_natCast]
      congr 1
      omega
    rw [h10]
    constructor
    · intro h
      exact_mod_cast h
    · intro h
      exact_mod_cast h
  · rw [if_neg he]
    simp only [decide_eq_true_eq]
    have h10 : ((10 : ℚ) ^ d.e) = ((10 : ℚ) ^ ((-d.e).toNat : Nat))⁻¹ := by
      rw [← zpow_natCast (10 : ℚ) (-d.e).toNat, ← zpow_neg]
      congr 1
      omega
    rw [h10]
    have hpos : (0 : ℚ) < 10 ^ ((-d.e).toNat : Nat) := by positivity
    rw [← div_eq_mul_inv, div_le_iff₀ hpos]
    constructor
    · intro h
      exact_mod_cast h
    · intro h
      exact_mod_cast h

/-- C5.  `is_token_expired` reports expired iff the token's decoded
`exp` claim satisfies `exp - now ≤ buffer_minutes * 60`, and reports
expired on every token whose claim cannot be extracted (empty token,
wrong segment count, base64/UTF-8/JSON failure, missing or unusable
`exp`); concrete vectors: `exp = 1000` at `now = exp - 120` is expired
with a 5-minute buffer but not with a 1-minute buffer, a token with no
`exp` or with only two segments is always expired, and a payload with an
embedded pad character is expired because the legacy base64 decoder
stops at the pad sequence and the truncated bytes are not JSON. -/
theorem is_token_expired_spec :
    (∀ (tok : String) (now buf : Int) (d : DecNum),
        jwtExpClaim tok = some (.num d) →
        (is_token_expired tok now buf = true ↔
          d.toRat - (now : ℚ) ≤ (buf : ℚ) * 60))
    ∧ (∀ (tok : String) (now buf : Int),
        jwtExpClaim tok = none → is_token_expired tok now buf = true)
    ∧ is_token_expired "h.eyJleHAiOjEwMDB9.s" 880 5 = true
    ∧ is_token_expired "h.eyJleHAiOjEwMDB9.s" 880 1 = false
    ∧ is_token_expired "h.e30.s" 0 5 = true
    ∧ is_token_expired "only.two" 0 5 = true
    ∧ is_token_expired "" 0 5 = true
    ∧ is_token_expired "h.eyJ=leHAiOjk5OTk5OTk5OTl9.s" 0 5 = true := by
  refine ⟨?_, ?_, by decide, by decide, by decide, by decide, by decide,
    by decide⟩
  · intro tok now buf d h
    rw [tokenExpired_of_claim_num tok now buf d h]
    rw [leConst_iff]
    constructor
    · intro hh
      push_cast at hh
      linarith
    · intro hh
      push_cast
      linarith
  · intro tok now buf h
    exact tokenExpired_of_claim_none tok now buf h

theorem is_token_expired_spec_witness :
    is_token_expired "h.eyJleHAiOjEwMDB9.s" 700 5 = true
    ∧ is_token_expired "h.eyJleHAiOiBmYWxzZX0.s" 0 5 = true := by
  constructor
  · exact (is_token_expired_spec.1 "h.eyJleHAiOjEwMDB9.s" 700 5 ⟨1000, 0⟩
      (by decide)).mpr (by norm_num [DecNum.toRat])
  · exact is_token_expired_spec.2.1 "h.eyJleHAiOiBmYWxzZX0.s" 0 5 (by decide)

end AccountPool
